import Mathlib

/-!
A verification development for the JSON Schema compiler of `msgspec`
(type-directed schema generation plus a deep-merge utility).

The repository ships the test suite (`tests/test_schema.py`) for this
subsystem; the implementation itself (`msgspec._json_schema` and
`msgspec._utils.merge_json`) is not among the provided sources, so the
definitions below are modelled from the specification, with the shipped
tests pinning concrete behaviour.  JSON documents are modelled as trees
whose objects are insertion-ordered association lists (matching Python
dict semantics, where assignment to an existing key keeps its position).
-/

set_option maxRecDepth 4000

namespace Msgspec

/-- JSON values.  Objects are insertion-ordered association lists. -/
inductive JSON where
  | null
  | bool (b : Bool)
  | int (n : Int)
  | str (s : String)
  | arr (xs : List JSON)
  | obj (kvs : List (String × JSON))

namespace JSON

/-- Look a key up in an association list (first match). -/
def lookup (k : String) : List (String × JSON) → Option JSON
  | [] => none
  | (k1, v) :: rest => if k1 = k then some v else lookup k rest

/-- Look a key up in a JSON value, when it is an object. -/
def get (j : JSON) (k : String) : Option JSON :=
  match j with
  | .obj kvs => lookup k kvs
  | _ => none

/-- True when the value is a key-value mapping. -/
def isObj : JSON → Bool
  | .obj _ => true
  | _ => false

/-- True when the value is an ordered sequence. -/
def isArr : JSON → Bool
  | .arr _ => true
  | _ => false

end JSON

/-!
## Deep-merge utility

Modelled from the spec: `merge(a, b)` — if both `a` and `b` are key-value
mappings, the result is `a` with, for each key in `b`: if the key exists in
`a` and both values are mappings, recursively merged; if both values are
ordered sequences, concatenated as `a_value + b_value`; otherwise `b`'s
value replaces `a`'s.  If `a`/`b` are not both mappings, `b` replaces `a`
entirely.  (`msgspec._utils.merge_json` is not among the provided sources;
its tests at `tests/test_schema.py:36-56` pin this behaviour.)
-/

mutual

/-- Deep merge `merge a b` per the algorithm above. -/
def merge : JSON → JSON → JSON
  | .obj a, .obj b => .obj (mergeList a b)
  | _, b => b

/-- Fold the keys of `b` into the association list `a`, left to right. -/
def mergeList (a : List (String × JSON)) : List (String × JSON) → List (String × JSON)
  | [] => a
  | (k, bv) :: rest => mergeList (mergeKey a k bv) rest

/-- Install one key of `b` into `a`: an existing key keeps its position and
combines the two values; a fresh key is appended at the end. -/
def mergeKey (a : List (String × JSON)) (k : String) (bv : JSON) : List (String × JSON) :=
  match a with
  | [] => [(k, bv)]
  | (k1, av) :: arest =>
    if k1 = k then (k1, mergeVal av bv) :: arest
    else (k1, av) :: mergeKey arest k bv

/-- Combine the two values found under a shared key. -/
def mergeVal (av bv : JSON) : JSON :=
  match av, bv with
  | .obj x, .obj y => .obj (mergeList x y)
  | .arr x, .arr y => .arr (x ++ y)
  | _, _ => bv

end

end Msgspec

namespace Msgspec

/-!
## Type descriptors

Modelled from the spec (§3 DATA MODEL): the canonical `TypeDescriptor`
variants produced by the TypeResolver.  (`msgspec`'s resolver and schema
builder are not among the provided sources.)  Named nodes carry the
defining scope (the declaring module) used for collision qualification.
-/

/-- Record layout: field-name-keyed object versus positional array. -/
inductive Layout where
  | objectLike
  | arrayLike
deriving DecidableEq

/-- An enum-member / literal / tag value: integer or string. -/
inductive EnumVal where
  | vint (n : Int)
  | vstr (s : String)
deriving DecidableEq

/-- Constraint and override metadata attached by an `Annotated` wrapper.
Modelled from the spec: numeric `ge/gt/le/lt/multiple_of`, string/binary
`pattern, min_length, max_length` (reused as size bounds for sequences
and objects), generic `title, description, examples, extra_schema`. -/
structure Meta where
  ge : Option Int
  gt : Option Int
  le : Option Int
  lt : Option Int
  multiple_of : Option Int
  pattern : Option String
  min_length : Option Nat
  max_length : Option Nat
  title : Option String
  description : Option String
  examples : Option (List JSON)
  extra_json_schema : Option JSON

/-- The metadata object with every slot unset. -/
def Meta.empty : Meta :=
  ⟨none, none, none, none, none, none, none, none, none, none, none, none⟩

/-- Modelled from the spec: the closed set of canonical type descriptors.
Record fields are `(name, type, optional default)` triples; the invariant
is that fields lacking a default precede all fields having one. -/
inductive TypeDescriptor where
  | any
  | nullT
  | boolT
  | intT
  | floatT
  | strT
  | binary
  | raw
  | ext
  | literal (vals : List EnumVal)
  | enumT (name scope : String) (doc : Option String) (intEnum : Bool)
      (members : List (String × EnumVal))
  | seqUntyped
  | seq (elem : TypeDescriptor)
  | tupleFixed (elems : List TypeDescriptor)
  | mapUntyped
  | mapOf (value : TypeDescriptor)
  | namedRecord (name scope : String) (doc : Option String)
      (fields : List (String × TypeDescriptor × Option JSON))
      (layout : Layout) (tag : Option (String × EnumVal))
  | namedFields (name scope : String) (doc : Option String)
      (fields : List (String × TypeDescriptor × Option JSON))
      (layout : Layout)
  | unionT (members : List TypeDescriptor)
  | custom (ident : String)
  | annotated (inner : TypeDescriptor) (m : Meta)

/-- Schema kind of a descriptor, selecting which JSON Schema key a
`min_length`/`max_length` bound maps to. -/
inductive SchemaKind where
  | numeric
  | stringK
  | binaryK
  | arrayK
  | objectK
  | otherK
deriving DecidableEq

/-- Classify a descriptor for constraint-key selection. -/
def kindOf : TypeDescriptor → SchemaKind
  | .intT => .numeric
  | .floatT => .numeric
  | .strT => .stringK
  | .binary => .binaryK
  | .seqUntyped => .arrayK
  | .seq _ => .arrayK
  | .tupleFixed _ => .arrayK
  | .mapUntyped => .objectK
  | .mapOf _ => .objectK
  | .annotated inner _ => kindOf inner
  | _ => .otherK

/-- Modelled from the spec: `encoded_length(n) = 4 * ceil(n / 3)`, the
base64-encoded character count of `n` raw bytes (in `Nat` arithmetic,
`ceil(n / 3) = (n + 2) / 3`). -/
def encodedLength (n : Nat) : Nat := 4 * ((n + 2) / 3)

/-- Update an existing key in place (keeping its position, as Python dict
assignment does) or append a fresh key at the end. -/
def setKey (kvs : List (String × JSON)) (k : String) (v : JSON) :
    List (String × JSON) :=
  match kvs with
  | [] => [(k, v)]
  | (k1, v1) :: rest =>
    if k1 = k then (k1, v) :: rest else (k1, v1) :: setKey rest k v

/-- Set a key under an optional value: absent constraint, no change. -/
def setOpt (kvs : List (String × JSON)) (k : String) :
    Option JSON → List (String × JSON)
  | none => kvs
  | some v => setKey kvs k v

/-- JSON Schema key receiving a `min_length` bound, by kind. -/
def minKeyOf : SchemaKind → String
  | .arrayK => "minItems"
  | .objectK => "minProperties"
  | _ => "minLength"

/-- JSON Schema key receiving a `max_length` bound, by kind. -/
def maxKeyOf : SchemaKind → String
  | .arrayK => "maxItems"
  | .objectK => "maxProperties"
  | _ => "maxLength"

/-- The emitted bound value: binary bounds are given in raw byte count and
converted to encoded character count. -/
def lengthVal (kind : SchemaKind) (n : Nat) : JSON :=
  match kind with
  | .binaryK => .int (encodedLength n)
  | _ => .int n

/-- Modelled from the spec (§4.2 ConstraintMerger): apply constraint
metadata to a base fragment — named scalar constraints mapped verbatim,
then generic metadata, then `extra_schema` deep-merged on top with the
override winning all conflicts. -/
def applyMeta (kind : SchemaKind) (base : JSON) (m : Meta) : JSON :=
  match base with
  | .obj kvs =>
    let kvs := setOpt kvs "minimum" (m.ge.map .int)
    let kvs := setOpt kvs "exclusiveMinimum" (m.gt.map .int)
    let kvs := setOpt kvs "maximum" (m.le.map .int)
    let kvs := setOpt kvs "exclusiveMaximum" (m.lt.map .int)
    let kvs := setOpt kvs "multipleOf" (m.multiple_of.map .int)
    let kvs := setOpt kvs "pattern" (m.pattern.map .str)
    let kvs := setOpt kvs (minKeyOf kind) (m.min_length.map (lengthVal kind))
    let kvs := setOpt kvs (maxKeyOf kind) (m.max_length.map (lengthVal kind))
    let kvs := setOpt kvs "title" (m.title.map .str)
    let kvs := setOpt kvs "description" (m.description.map .str)
    let kvs := setOpt kvs "examples" (m.examples.map .arr)
    match m.extra_json_schema with
    | some ex => merge (.obj kvs) ex
    | none => .obj kvs
  | j => j

/-!
## Component registry

Modelled from the spec (§4.3 ComponentRegistry): named types are
collected first (one entry per distinct identity, identity = defining
scope × short name), then final component names are assigned: an entry
keeps its short name unless some other identity shares that short name,
in which case every entry sharing it is qualified as
`"<defining-scope>.<short_name>"`.  References substitute the final name
into a configurable template (default `"#/$defs/{name}"`, modelled as a
prefix/suffix pair around the name).
-/

/-- One collected registry entry: defining scope, short name, and the
named descriptor itself. -/
structure Entry where
  scope : String
  short : String
  desc : TypeDescriptor

/-- The identity of an entry: defining scope × short name. -/
def entryId (e : Entry) : String × String := (e.scope, e.short)

mutual

/-- Collect the named-type entries of one descriptor, pre-order. -/
def collect : TypeDescriptor → List Entry
  | .enumT n s d ie ms => [⟨s, n, .enumT n s d ie ms⟩]
  | .seq e => collect e
  | .tupleFixed es => collectList es
  | .mapOf v => collect v
  | .namedRecord n s d fs l t => ⟨s, n, .namedRecord n s d fs l t⟩ :: collectFields fs
  | .namedFields n s d fs l => ⟨s, n, .namedFields n s d fs l⟩ :: collectFields fs
  | .unionT ms => collectList ms
  | .annotated inner _ => collect inner
  | _ => []

/-- Collect across a list of descriptors, in order. -/
def collectList : List TypeDescriptor → List Entry
  | [] => []
  | t :: ts => collect t ++ collectList ts

/-- Collect across a record's field types, in order. -/
def collectFields : List (String × TypeDescriptor × Option JSON) → List Entry
  | [] => []
  | (_, t, _) :: fs => collect t ++ collectFields fs

end

/-- Drop entries whose identity was already seen (keep first visit). -/
def dedupGo (seen : List (String × String)) : List Entry → List Entry
  | [] => []
  | e :: rest =>
    if entryId e ∈ seen then dedupGo seen rest
    else e :: dedupGo (entryId e :: seen) rest

/-- One entry per distinct named-type identity, in first-visit order. -/
def dedupById (l : List Entry) : List Entry := dedupGo [] l

/-- Does some entry with a *different* identity claim the same short name? -/
def collides (entries : List Entry) (scope short : String) : Bool :=
  entries.any (fun e2 => decide (e2.short = short ∧ e2.scope ≠ scope))

/-- Final component name: the short name, qualified by the defining scope
exactly when any other identity shares the short name. -/
def finalName (entries : List Entry) (scope short : String) : String :=
  if collides entries scope short then scope ++ "." ++ short else short

/-- A reference-naming template, modelled as the text surrounding the
substituted component name (default template `"#/$defs/{name}"`). -/
structure RefTemplate where
  pre : String
  post : String

/-- Substitute a final component name into the template. -/
def RefTemplate.apply (t : RefTemplate) (name : String) : String :=
  t.pre ++ name ++ t.post

/-- The default reference template `"#/$defs/{name}"`. -/
def defaultTemplate : RefTemplate := ⟨"#/$defs/", ""⟩

/-- The `$ref` fragment emitted at a named node's use site. -/
def refFor (tmpl : RefTemplate) (name : String) : JSON :=
  .obj [("$ref", .str (tmpl.apply name))]

end Msgspec

namespace Msgspec

/-!
## Schema builder

Modelled from the spec (§4.4 SchemaBuilder, §4.5 entry points), with two
behaviours pinned by the repository's own tests where the spec and the
tests disagree:
* `tests/test_schema.py::test_msgpack_ext` — a msgpack extension type is
  rejected by the JSON schema builder (`TypeError`), not mapped to `{}`;
* `tests/test_schema.py::test_struct_array_union` — only *object-layout*
  tagged records are discriminator-eligible: a union of tagged
  array-layout records emits a plain `anyOf` with no `discriminator`;
* `tests/test_schema.py::test_schema_components_collects_subtypes` — the
  enum rule dispatches on the enum's class (`IntEnum` versus plain
  `Enum`), not on its values: the int-valued plain `ExEnum(A=1)` yields
  `{"enum": ["A"]}` (member names), while `test_int_enum`'s `IntEnum`
  yields sorted member values.
-/

/-- The error produced for a custom type with no reachable
`extra_schema` override (the message identifies it as an unsupported
custom type, per `test_custom`'s `TypeError, match="Custom types"`). -/
def customErrorMsg (ident : String) : String :=
  "Custom types like " ++ ident ++
    " require a manually provided schema via extra_json_schema"

/-- The error produced for a msgpack extension type under the JSON
protocol (a `TypeError` per `test_msgpack_ext`). -/
def extErrorMsg : String :=
  "Ext types are not supported by the JSON protocol"

/-- True for a `Custom` node, looking through `Annotated` wrappers. -/
def isCustom : TypeDescriptor → Bool
  | .custom _ => true
  | .annotated inner _ => isCustom inner
  | _ => false

/-- Discriminator eligibility: a *tagged, object-layout* named record
(looking through `Annotated` wrappers).  Returns
`(tag field, tag value, scope, short name)`. -/
def eligInfo : TypeDescriptor → Option (String × EnumVal × String × String)
  | .namedRecord n s _ _ .objectLike (some (tf, tv)) => some (tf, tv, s, n)
  | .annotated inner _ => eligInfo inner
  | _ => none

/-- The string key a tag value contributes to `discriminator.mapping`. -/
def tagKey : EnumVal → String
  | .vstr s => s
  | .vint n => toString n

/-- A tag value as a JSON value. -/
def tagJson : EnumVal → JSON
  | .vstr s => .str s
  | .vint n => .int n

/-- Integer payloads of a value list. -/
def intsOf : List EnumVal → List Int :=
  List.filterMap fun v => match v with | .vint n => some n | .vstr _ => none

/-- String payloads of a value list. -/
def strsOf : List EnumVal → List String :=
  List.filterMap fun v => match v with | .vstr s => some s | .vint _ => none

/-- Are all values integers? -/
def allInts : List EnumVal → Bool
  | [] => true
  | .vint _ :: rest => allInts rest
  | .vstr _ :: _ => false

/-- Ascending sort of integers (insertion sort, stable). -/
def sortedInts (l : List Int) : List Int := List.insertionSort (· ≤ ·) l

/-- Code-point lexicographic comparison of character lists (the order
Python's `sorted` uses on strings). -/
def charsLe : List Char → List Char → Bool
  | [], _ => true
  | _ :: _, [] => false
  | a :: as, b :: bs =>
    if a < b then true else if b < a then false else charsLe as bs

/-- Ascending lexicographic order on strings, by code points. -/
def strLe (a b : String) : Prop := charsLe a.data b.data = true

instance : DecidableRel strLe := fun a b =>
  inferInstanceAs (Decidable (charsLe a.data b.data = true))

/-- Ascending lexicographic sort of strings (insertion sort, stable). -/
def sortedStrs (l : List String) : List String := List.insertionSort strLe l

/-- The `enum` fragment of a `Literal`: sorted values — ascending numeric
for all-integer literals, ascending lexicographic otherwise. -/
def literalJson (vals : List EnumVal) : JSON :=
  if allInts vals then .obj [("enum", .arr ((sortedInts (intsOf vals)).map .int))]
  else .obj [("enum", .arr ((sortedStrs (strsOf vals)).map .str))]

/-- The `enum` key of an enum component.  The dispatch is on the enum's
*class*, recorded in the descriptor's `intEnum` flag: an `IntEnum`'s wire
form is its integer value, so its schema lists the member values sorted
ascending; every plain `Enum` — even one whose values are all integers —
is encoded by member *name*, so its schema lists the member names sorted
ascending lexicographically.  Pinned by `test_int_enum`, `test_enum`, and
`test_schema_components_collects_subtypes` (whose int-valued plain
`ExEnum(A=1)` yields `{"enum": ["A"]}`). -/
def enumKeyJson (intEnum : Bool) (members : List (String × EnumVal)) : JSON :=
  if intEnum then
    .arr ((sortedInts (intsOf (members.map (·.2)))).map .int)
  else
    .arr ((sortedStrs (members.map (·.1))).map .str)

/-- Optional `description` entry when the type has a docstring. -/
def withDoc : Option String → List (String × JSON)
  | some d => [("description", .str d)]
  | none => []

/-- Names of the fields lacking a default, in declared order. -/
def requiredNames (fields : List (String × TypeDescriptor × Option JSON)) :
    List String :=
  fields.filterMap fun f => match f.2.2 with
    | none => some f.1
    | some _ => none

/-- Length of the leading run of fields lacking a default. -/
def leadingRequired : List (String × TypeDescriptor × Option JSON) → Nat
  | [] => 0
  | (_, _, none) :: rest => 1 + leadingRequired rest
  | (_, _, some _) :: _ => 0

/-- The grouped discriminated fragment for the eligible members of a
union: member refs in original order plus the discriminator object. -/
def groupedFragment (ns : List Entry) (tmpl : RefTemplate) (tf : String)
    (elig : List (String × EnumVal × String × String)) : JSON :=
  .obj [("anyOf", .arr (elig.map fun e =>
          refFor tmpl (finalName ns e.2.2.1 e.2.2.2))),
        ("discriminator", .obj
          [("propertyName", .str tf),
           ("mapping", .obj (elig.map fun e =>
             (tagKey e.2.1, .str (tmpl.apply (finalName ns e.2.2.1 e.2.2.2)))))])]

mutual

/-- Modelled from the spec: transform one descriptor into its schema
fragment.  Named nodes resolve to `$ref`s through the registry name list
`ns`; failures (custom types with no override, msgpack extension types
under JSON) are `Except.error`. -/
def build (ns : List Entry) (tmpl : RefTemplate) :
    TypeDescriptor → Except String JSON
  | .any => pure (.obj [])
  | .raw => pure (.obj [])
  | .ext => throw extErrorMsg
  | .nullT => pure (.obj [("type", .str "null")])
  | .boolT => pure (.obj [("type", .str "boolean")])
  | .intT => pure (.obj [("type", .str "integer")])
  | .floatT => pure (.obj [("type", .str "number")])
  | .strT => pure (.obj [("type", .str "string")])
  | .binary => pure (.obj [("type", .str "string"),
      ("contentEncoding", .str "base64")])
  | .literal vals => pure (literalJson vals)
  | .enumT n s _ _ _ => pure (refFor tmpl (finalName ns s n))
  | .seqUntyped => pure (.obj [("type", .str "array")])
  | .seq e => do
      let item ← build ns tmpl e
      pure (.obj [("type", .str "array"), ("items", item)])
  | .tupleFixed es =>
      match es with
      | [] => pure (.obj [("type", .str "array"),
          ("minItems", .int 0), ("maxItems", .int 0)])
      | es => do
        let items ← buildList ns tmpl es
        pure (.obj [("type", .str "array"),
          ("minItems", .int es.length), ("maxItems", .int es.length),
          ("items", .bool false), ("prefixItems", .arr items)])
  | .mapUntyped => pure (.obj [("type", .str "object")])
  | .mapOf v => do
      let val ← build ns tmpl v
      pure (.obj [("type", .str "object"), ("additionalProperties", val)])
  | .namedRecord n s _ _ _ _ => pure (refFor tmpl (finalName ns s n))
  | .namedFields n s _ _ _ => pure (refFor tmpl (finalName ns s n))
  | .unionT ms =>
      match ms.filterMap eligInfo with
      | [] => do
        let others ← buildOthers ns tmpl ms
        pure (.obj [("anyOf", .arr others)])
      | (tf, rest0) :: restElig =>
        if ((tf, rest0) :: restElig).all (fun e => e.1 = tf) then do
          let others ← buildOthers ns tmpl ms
          if others.isEmpty then
            pure (groupedFragment ns tmpl tf ((tf, rest0) :: restElig))
          else
            pure (.obj [("anyOf",
              .arr (others ++ [groupedFragment ns tmpl tf ((tf, rest0) :: restElig)]))])
        else do
          let frags ← buildList ns tmpl ms
          pure (.obj [("anyOf", .arr frags)])
  | .custom ident => throw (customErrorMsg ident)
  | .annotated inner m =>
      if isCustom inner then
        match m.extra_json_schema with
        | some ex => pure ex
        | none => build ns tmpl inner
      else do
        let base ← build ns tmpl inner
        pure (applyMeta (kindOf inner) base m)

/-- Build each descriptor of a list, in order. -/
def buildList (ns : List Entry) (tmpl : RefTemplate) :
    List TypeDescriptor → Except String (List JSON)
  | [] => pure []
  | t :: ts => do
      let f ← build ns tmpl t
      let fs ← buildList ns tmpl ts
      pure (f :: fs)

/-- Build the fragments of the non-eligible members of a union, keeping
their original relative order and skipping eligible members. -/
def buildOthers (ns : List Entry) (tmpl : RefTemplate) :
    List TypeDescriptor → Except String (List JSON)
  | [] => pure []
  | t :: ts =>
      if (eligInfo t).isSome then buildOthers ns tmpl ts
      else do
        let f ← build ns tmpl t
        let fs ← buildOthers ns tmpl ts
        pure (f :: fs)

/-- Build a record field's property fragment: the field type's fragment,
with `"default"` added when the field carries a default. -/
def buildField (ns : List Entry) (tmpl : RefTemplate)
    (t : TypeDescriptor) (d : Option JSON) : Except String JSON := do
  let f ← build ns tmpl t
  match d, f with
  | some dv, .obj kvs => pure (.obj (setKey kvs "default" dv))
  | _, _ => pure f

/-- Build the `properties` entries of an object-layout record. -/
def buildProps (ns : List Entry) (tmpl : RefTemplate) :
    List (String × TypeDescriptor × Option JSON) →
    Except String (List (String × JSON))
  | [] => pure []
  | (n, t, d) :: fs => do
      let f ← buildField ns tmpl t d
      let rest ← buildProps ns tmpl fs
      pure ((n, f) :: rest)

/-- Build the `prefixItems` slots of an array-layout record. -/
def buildSlots (ns : List Entry) (tmpl : RefTemplate) :
    List (String × TypeDescriptor × Option JSON) →
    Except String (List JSON)
  | [] => pure []
  | (_, t, d) :: fs => do
      let f ← buildField ns tmpl t d
      let rest ← buildSlots ns tmpl fs
      pure (f :: rest)

/-- Modelled from the spec: the component body registered for a named
node (`Enum`, `NamedRecord`, `NamedFields`).  Object layout emits
`properties`/`required` (with the synthetic leading tag property when
tagged); array layout emits `prefixItems`/`minItems` (tag slot first when
tagged), with `maxItems` only for `NamedFields` (fixed field groups such
as named tuples; a tagged record's array layout admits trailing fields). -/
def buildBody (ns : List Entry) (tmpl : RefTemplate) :
    TypeDescriptor → Except String JSON
  | .enumT n _ doc ie members =>
      pure (.obj ([("title", .str n)] ++ withDoc doc ++
        [("enum", enumKeyJson ie members)]))
  | .namedRecord n _ doc fields .objectLike tag => do
      let props ← buildProps ns tmpl fields
      let props := match tag with
        | some (tf, tv) => (tf, JSON.obj [("enum", .arr [tagJson tv])]) :: props
        | none => props
      let req := match tag with
        | some (tf, _) => tf :: requiredNames fields
        | none => requiredNames fields
      pure (.obj ([("title", .str n)] ++ withDoc doc ++
        [("type", .str "object"), ("properties", .obj props),
         ("required", .arr (req.map .str))]))
  | .namedRecord n _ doc fields .arrayLike tag => do
      let slots ← buildSlots ns tmpl fields
      let slots := match tag with
        | some (_, tv) => JSON.obj [("enum", .arr [tagJson tv])] :: slots
        | none => slots
      let minI := match tag with
        | some _ => 1 + leadingRequired fields
        | none => leadingRequired fields
      pure (.obj ([("title", .str n)] ++ withDoc doc ++
        [("type", .str "array"), ("prefixItems", .arr slots),
         ("minItems", .int minI)]))
  | .namedFields n _ doc fields .objectLike => do
      let props ← buildProps ns tmpl fields
      pure (.obj ([("title", .str n)] ++ withDoc doc ++
        [("type", .str "object"), ("properties", .obj props),
         ("required", .arr ((requiredNames fields).map .str))]))
  | .namedFields n _ doc fields .arrayLike => do
      let slots ← buildSlots ns tmpl fields
      pure (.obj ([("title", .str n)] ++ withDoc doc ++
        [("type", .str "array"), ("prefixItems", .arr slots),
         ("minItems", .int (leadingRequired fields)),
         ("maxItems", .int fields.length)]))
  | _ => pure (.obj [])

end

/-- Build the `(final name, body)` component list for registry entries. -/
def buildComponents (ns : List Entry) (tmpl : RefTemplate) :
    List Entry → Except String (List (String × JSON))
  | [] => .ok []
  | e :: rest =>
    match buildBody ns tmpl e.desc with
    | .error msg => .error msg
    | .ok body =>
      match buildComponents ns tmpl rest with
      | .error msg => .error msg
      | .ok others => .ok ((finalName ns e.scope e.short, body) :: others)

/-- Modelled from the spec (§4.5): build multiple roots against one shared
registry, returning the per-root fragments and the components map. -/
def schemaComponents (roots : List TypeDescriptor) (tmpl : RefTemplate) :
    Except String (List JSON × List (String × JSON)) :=
  match buildList (dedupById (collectList roots)) tmpl roots with
  | .error msg => .error msg
  | .ok frags =>
    match buildComponents (dedupById (collectList roots)) tmpl
        (dedupById (collectList roots)) with
    | .error msg => .error msg
    | .ok comps => .ok (frags, comps)

/-- Modelled from the spec (§4.5): the single-root entry point — build one
root with the default template and inline the components under `$defs`
(omitted when no component was collected). -/
def jsonSchema (t : TypeDescriptor) : Except String JSON := do
  let res ← schemaComponents [t] defaultTemplate
  match res.1 with
  | [frag] =>
    match res.2 with
    | [] => pure frag
    | comps =>
      match frag with
      | .obj kvs => pure (.obj (kvs ++ [("$defs", .obj comps)]))
      | f => pure f
  | _ => throw "no root fragment"

end Msgspec

namespace Msgspec

/-!
## Derived views and concrete fixtures

The fixtures mirror the type declarations of the repository's test suite
(`tests/test_schema.py`), so the theorems below reproduce the tests'
expected documents.
-/

/-- The identity `(defining scope, short name)` of a named descriptor;
`none` for anonymous composites (containers, unions, literals,
primitives), which are never registered as components. -/
def identOf : TypeDescriptor → Option (String × String)
  | .enumT n s _ _ _ => some (s, n)
  | .namedRecord n s _ _ _ _ => some (s, n)
  | .namedFields n s _ _ _ => some (s, n)
  | _ => none

/-- Metadata carrying only a `min_length` raw-byte bound. -/
def metaMinLength (n : Nat) : Meta := { Meta.empty with min_length := some n }

/-- Metadata carrying only a `max_length` raw-byte bound. -/
def metaMaxLength (n : Nat) : Meta := { Meta.empty with max_length := some n }

/-- Metadata carrying only an `extra_schema` override. -/
def metaExtra (j : JSON) : Meta := { Meta.empty with extra_json_schema := some j }

/-- Tagged object-layout `Point` struct (`test_struct_tagged_union`). -/
def PointT : TypeDescriptor :=
  .namedRecord "Point" "testmod" none
    [("x", .intT, none), ("y", .intT, none)]
    .objectLike (some ("type", .vstr "Point"))

/-- Tagged object-layout `Point3D` subtype, fields flattened. -/
def Point3DT : TypeDescriptor :=
  .namedRecord "Point3D" "testmod" none
    [("x", .intT, none), ("y", .intT, none), ("z", .intT, none)]
    .objectLike (some ("type", .vstr "Point3D"))

/-- Expected `Point` component body. -/
def PointBody : JSON :=
  .obj [("title", .str "Point"), ("type", .str "object"),
    ("properties", .obj [
      ("type", .obj [("enum", .arr [.str "Point"])]),
      ("x", .obj [("type", .str "integer")]),
      ("y", .obj [("type", .str "integer")])]),
    ("required", .arr [.str "type", .str "x", .str "y"])]

/-- Expected `Point3D` component body. -/
def Point3DBody : JSON :=
  .obj [("title", .str "Point3D"), ("type", .str "object"),
    ("properties", .obj [
      ("type", .obj [("enum", .arr [.str "Point3D"])]),
      ("x", .obj [("type", .str "integer")]),
      ("y", .obj [("type", .str "integer")]),
      ("z", .obj [("type", .str "integer")])]),
    ("required", .arr [.str "type", .str "x", .str "y", .str "z"])]

/-- Tagged *array-layout* `Point` struct (`test_struct_array_union`). -/
def PointArrT : TypeDescriptor :=
  .namedRecord "Point" "testmod" none
    [("x", .intT, none), ("y", .intT, none)]
    .arrayLike (some ("type", .vstr "Point"))

/-- Tagged *array-layout* `Point3D` subtype, fields flattened. -/
def Point3DArrT : TypeDescriptor :=
  .namedRecord "Point3D" "testmod" none
    [("x", .intT, none), ("y", .intT, none), ("z", .intT, none)]
    .arrayLike (some ("type", .vstr "Point3D"))

/-- The document the builder produces for `Union[Point, Point3D]` with
*array-layout* tagged members — the expected value of
`test_struct_array_union`, which carries no `discriminator` key. -/
def arrayUnionDoc : JSON :=
  .obj [("anyOf", .arr [.obj [("$ref", .str "#/$defs/Point")],
                        .obj [("$ref", .str "#/$defs/Point3D")]]),
        ("$defs", .obj [
          ("Point", .obj [("title", .str "Point"), ("type", .str "array"),
            ("prefixItems", .arr [.obj [("enum", .arr [.str "Point"])],
              .obj [("type", .str "integer")], .obj [("type", .str "integer")]]),
            ("minItems", .int 3)]),
          ("Point3D", .obj [("title", .str "Point3D"), ("type", .str "array"),
            ("prefixItems", .arr [.obj [("enum", .arr [.str "Point3D"])],
              .obj [("type", .str "integer")], .obj [("type", .str "integer")],
              .obj [("type", .str "integer")]]),
            ("minItems", .int 4)])])]

/-- Subtype-collection fixtures (`test_schema_components_collects_subtypes`). -/
def ExEnumT : TypeDescriptor :=
  .enumT "ExEnum" "mod" none false [("A", .vint 1)]

/-- Struct with a union field over nested containers of `ExEnum`. -/
def ExStructT : TypeDescriptor :=
  .namedRecord "ExStruct" "mod" none
    [("b", .unionT [.seq (.seq ExEnumT), .intT], none)]
    .objectLike none

/-- Typed-dict field group holding a variadic tuple of `ExStruct`. -/
def ExDictT : TypeDescriptor :=
  .namedFields "ExDict" "mod" none [("c", .seq ExStructT, none)] .objectLike

/-- Named tuple holding a list of `ExDict`. -/
def ExTupleT : TypeDescriptor :=
  .namedFields "ExTuple" "mod" none [("d", .seq ExDictT, none)] .arrayLike

end Msgspec

namespace Msgspec

/-!
## Theorems

Helper lemmas first, then one theorem per specification claim (with a
witness instantiation whenever the claim theorem carries hypotheses).
-/

/-- Merge of anything but two mappings replaces the first argument. -/
theorem merge_not_obj (a b : JSON) (h : ¬(a.isObj = true ∧ b.isObj = true)) :
    merge a b = b := by
  cases a <;> cases b
  case obj.obj x y => exact absurd ⟨rfl, rfl⟩ h
  all_goals simp [merge]

/-- A key outside an association list's key set looks up to `none`. -/
theorem lookup_eq_none (kvs : List (String × JSON)) (k : String)
    (h : k ∉ kvs.map Prod.fst) : JSON.lookup k kvs = none := by
  induction kvs with
  | nil => rfl
  | cons hd tl ih =>
    obtain ⟨k1, v⟩ := hd
    simp only [List.map, List.mem_cons, not_or] at h
    simp only [JSON.lookup, if_neg (fun hh : k1 = k => h.1 hh.symm)]
    exact ih h.2

/-- Lookup after installing one key of `b`: the installed key holds the
combined value, every other key is untouched. -/
theorem lookup_mergeKey (a : List (String × JSON)) (k k' : String) (bv : JSON) :
    JSON.lookup k' (mergeKey a k bv) =
      if k = k' then
        some (match JSON.lookup k a with
          | some av => mergeVal av bv
          | none => bv)
      else JSON.lookup k' a := by
  induction a with
  | nil =>
    simp [mergeKey, JSON.lookup]
  | cons hd tl ih =>
    obtain ⟨k1, av⟩ := hd
    simp only [mergeKey]
    by_cases h1 : k1 = k
    · subst h1
      simp only [if_pos rfl, JSON.lookup]
      by_cases h2 : k1 = k' <;> simp [h2]
    · rw [if_neg h1]
      simp only [JSON.lookup]
      by_cases h2 : k1 = k'
      · subst h2
        rw [if_pos rfl, if_neg (fun hh => h1 hh.symm), if_pos rfl]
      · rw [if_neg h2, ih, if_neg h2]
        by_cases h3 : k = k' <;> simp [h3, h1, h2]

/-- Pointwise characterisation of the object merge: a key present in both
holds the combined value, a key present in one side holds that value. -/
theorem lookup_mergeList (a b : List (String × JSON)) (k : String)
    (hb : (b.map Prod.fst).Nodup) :
    JSON.lookup k (mergeList a b) =
      match JSON.lookup k a, JSON.lookup k b with
      | some av, some bv => some (mergeVal av bv)
      | none, some bv => some bv
      | some av, none => some av
      | none, none => none := by
  induction b generalizing a with
  | nil =>
    simp only [mergeList, JSON.lookup]
    cases JSON.lookup k a <;> rfl
  | cons hd rest ih =>
    obtain ⟨kb, bv⟩ := hd
    simp only [List.map, List.nodup_cons] at hb
    simp only [mergeList]
    rw [ih _ hb.2, lookup_mergeKey]
    by_cases hk : kb = k
    · subst hk
      rw [if_pos rfl]
      have hrest : JSON.lookup kb rest = none := lookup_eq_none rest kb hb.1
      simp only [JSON.lookup, if_pos rfl, hrest]
      cases JSON.lookup kb a <;> rfl
    · rw [if_neg hk]
      simp only [JSON.lookup, if_neg hk]

/-- C4: the deep-merge utility — for mappings the result extends `a` by
each key of `b` (mapping values merged recursively, sequence values
concatenated, any other shared key taking `b`'s value, keyed pointwise by
`lookup`); for anything else `b` replaces `a`; and the spec's concrete
examples hold, with neither input mutated (the model is pure). -/
theorem merge_spec :
    (∀ a b : JSON, ¬(a.isObj = true ∧ b.isObj = true) → merge a b = b) ∧
    (∀ (akvs bkvs : List (String × JSON)) (k : String),
      (bkvs.map Prod.fst).Nodup →
      JSON.lookup k (mergeList akvs bkvs) =
        match JSON.lookup k akvs, JSON.lookup k bkvs with
        | some av, some bv => some (mergeVal av bv)
        | none, some bv => some bv
        | some av, none => some av
        | none, none => none) ∧
    (∀ x y : List (String × JSON), merge (.obj x) (.obj y) = .obj (mergeList x y)) ∧
    (∀ x y : List (String × JSON), mergeVal (.obj x) (.obj y) = merge (.obj x) (.obj y)) ∧
    (∀ x y : List JSON, mergeVal (.arr x) (.arr y) = .arr (x ++ y)) ∧
    (∀ (x : List (String × JSON)) (n : Int), mergeVal (.obj x) (.int n) = .int n) ∧
    merge (.obj [("a", .obj [("b", .obj [("c", .int 1)])])])
          (.obj [("a", .obj [("b", .obj [("d", .int 2)])])]) =
      .obj [("a", .obj [("b", .obj [("c", .int 1), ("d", .int 2)])])] ∧
    merge (.obj [("a", .arr [.int 1, .int 2])]) (.obj [("a", .arr [.int 3, .int 4])]) =
      .obj [("a", .arr [.int 1, .int 2, .int 3, .int 4])] ∧
    merge (.obj [("a", .int 1)]) (.obj [("a", .int 2)]) = .obj [("a", .int 2)] := by
  refine ⟨merge_not_obj, lookup_mergeList, ?_, ?_, ?_, ?_, ?_, ?_, ?_⟩
  · intro x y; simp [merge]
  · intro x y; simp [mergeVal, merge]
  · intro x y; simp [mergeVal]
  · intro x n; simp [mergeVal]
  · simp [merge, mergeList, mergeKey, mergeVal]
  · simp [merge, mergeList, mergeKey, mergeVal]
  · simp [merge, mergeList, mergeKey, mergeVal]

/-- C4 witness: the merge theorem applied at concrete inputs. -/
theorem merge_spec_witness :
    merge (.int 1) (.int 2) = .int 2 ∧
    JSON.lookup "x" (mergeList [("x", JSON.int 1)] [("x", JSON.int 2)]) =
      some (.int 2) := by
  constructor
  · exact merge_spec.1 (.int 1) (.int 2) (by simp [JSON.isObj])
  · have h := merge_spec.2.1 [("x", JSON.int 1)] [("x", JSON.int 2)] "x" (by simp)
    simpa [JSON.lookup, mergeVal] using h

end Msgspec

namespace Msgspec

/-- C6: a custom type with no interpretable shape fails with an error
message identifying it as an unsupported custom type, unless an enclosing
`Annotated` carries an `extra_schema` override, in which case that
override is returned verbatim as the entire fragment (nothing merged). -/
theorem custom_type_fallback (ident : String) (s : JSON) :
    jsonSchema (.custom ident) = .error (customErrorMsg ident) ∧
    jsonSchema (.annotated (.custom ident) (metaExtra s)) = .ok s ∧
    jsonSchema (.annotated (.custom "UUID") (metaExtra (.obj
      [("type", .str "string"), ("pattern", .str "uuid4")]))) =
      .ok (.obj [("type", .str "string"), ("pattern", .str "uuid4")]) :=
  ⟨rfl, rfl, rfl⟩

/-- C5: binary `min_length`/`max_length` raw-byte bounds are emitted as
encoded character counts `encodedLength n = 4 * ((n + 2) / 3)`, which is
exactly `4 * ceil(n / 3)` (the fourth conjunct is the Galois
characterisation of the ceiling: `(n + 2) / 3` is the least `k` with
`n ≤ 3 * k`); in particular `2 ↦ 4` and `7 ↦ 12`, and the fragment keeps
`"type": "string"` and `"contentEncoding": "base64"`. -/
theorem binary_length_bounds (n : Nat) :
    jsonSchema (.annotated .binary (metaMinLength n)) = .ok (.obj
      [("type", .str "string"), ("contentEncoding", .str "base64"),
       ("minLength", .int (encodedLength n))]) ∧
    jsonSchema (.annotated .binary (metaMaxLength n)) = .ok (.obj
      [("type", .str "string"), ("contentEncoding", .str "base64"),
       ("maxLength", .int (encodedLength n))]) ∧
    encodedLength n = 4 * ((n + 2) / 3) ∧
    (∀ k : Nat, (n + 2) / 3 ≤ k ↔ n ≤ 3 * k) ∧
    encodedLength 2 = 4 ∧ encodedLength 7 = 12 := by
  refine ⟨rfl, rfl, rfl, ?_, rfl, rfl⟩
  intro k
  omega

/-- C7 counterexample: the claim says every opaque wire-extension type
maps to `{}` without failing, but the JSON schema builder rejects the
msgpack extension type with an error (`test_msgpack_ext` expects a
`TypeError`). -/
theorem ext_schema_fails_cex :
    jsonSchema .ext = .error extErrorMsg ∧
    (match jsonSchema .ext with
      | .ok _ => true
      | .error _ => false) = false :=
  ⟨rfl, rfl⟩

/-- C7 as amended: `Any` and the opaque raw wire type build to the empty
fragment `{}` without failing, while the msgpack-only extension type is
rejected by the JSON schema builder. -/
theorem raw_ext_schema :
    jsonSchema .any = .ok (.obj []) ∧
    jsonSchema .raw = .ok (.obj []) ∧
    jsonSchema .ext = .error extErrorMsg :=
  ⟨rfl, rfl, rfl⟩

end Msgspec

namespace Msgspec

/-- Characterisation of `charsLe` against the lexicographic relation on
character lists: it is the reflexive closure of the code-point order. -/
theorem charsLe_not_lex :
    ∀ as bs : List Char, charsLe as bs = true ↔ ¬ List.Lex (· < ·) bs as
  | [], bs => iff_of_true rfl (fun h => nomatch h)
  | a :: as, [] => by
    simp only [charsLe]
    exact iff_of_false (by simp) (fun h => h List.Lex.nil)
  | a :: as, b :: bs => by
    simp only [charsLe]
    by_cases hab : a < b
    · rw [if_pos hab]
      refine iff_of_true rfl (fun h => ?_)
      cases h with
      | cons h2 => exact absurd hab (lt_irrefl a)
      | rel h2 => exact absurd h2 (lt_asymm hab)
    · rw [if_neg hab]
      by_cases hba : b < a
      · rw [if_pos hba]
        exact iff_of_false (by simp) (fun h => h (List.Lex.rel hba))
      · rw [if_neg hba]
        have heq : a = b := le_antisymm (le_of_not_lt hba) (le_of_not_lt hab)
        subst heq
        rw [charsLe_not_lex as bs]
        constructor
        · intro h hlt
          cases hlt with
          | cons h2 => exact h h2
          | rel h2 => exact absurd h2 hba
        · intro h hlt
          exact h (List.Lex.cons hlt)

/-- The executable string comparison agrees with the lexicographic order
on `String`. -/
theorem strLe_iff (a b : String) : strLe a b ↔ a ≤ b := by
  rw [String.le_iff_toList_le, ← not_lt]
  have h3 : (b.toList < a.toList) ↔ List.Lex (· < ·) b.toList a.toList := Iff.rfl
  rw [h3]
  exact charsLe_not_lex a.toList b.toList

/-- String sorting produces a list ascending in the lexicographic order. -/
theorem sortedStrs_sorted (l : List String) :
    (sortedStrs l).Sorted (fun a b => a ≤ b) := by
  haveI htot : IsTotal String strLe :=
    ⟨fun a b => by
      rw [strLe_iff, strLe_iff]
      exact le_total a b⟩
  haveI htr : IsTrans String strLe :=
    ⟨fun a b c hab hbc => by
      rw [strLe_iff] at hab hbc ⊢
      exact le_trans hab hbc⟩
  exact (List.sorted_insertionSort strLe l).imp (fun h => (strLe_iff _ _).mp h)

/-- String sorting permutes its input. -/
theorem sortedStrs_perm (l : List String) : List.Perm (sortedStrs l) l :=
  List.perm_insertionSort strLe l

/-- Integer sorting produces an ascending list. -/
theorem sortedInts_sorted (l : List Int) :
    (sortedInts l).Sorted (fun a b => a ≤ b) :=
  List.sorted_insertionSort (fun a b => a ≤ b) l

/-- Integer sorting permutes its input. -/
theorem sortedInts_perm (l : List Int) : List.Perm (sortedInts l) l :=
  List.perm_insertionSort (fun a b => a ≤ b) l

/-- C3 counterexample: the claim predicts sorted member *values* for
every enum whose values are all integers, but the int-valued plain
`Enum` fixture `ExEnum(A = 1)` of
`test_schema_components_collects_subtypes` builds its `enum` key from
the member *names* — `["A"]`, not `[1]` — even though every member value
is an integer (third conjunct). -/
theorem intValuedEnum_yields_names_cex :
    buildBody [] defaultTemplate
      (.enumT "ExEnum" "mod" none false [("A", .vint 1)]) =
      .ok (.obj [("title", .str "ExEnum"), ("enum", .arr [.str "A"])]) ∧
    jsonSchema (.enumT "ExEnum" "mod" none false [("A", .vint 1)]) = .ok (.obj
      [("$ref", .str "#/$defs/ExEnum"),
       ("$defs", .obj [("ExEnum", .obj [("title", .str "ExEnum"),
         ("enum", .arr [.str "A"])])])]) ∧
    allInts ([("A", EnumVal.vint 1)].map (·.2)) = true :=
  ⟨rfl, rfl, rfl⟩

/-- C3 as amended: the enum rule dispatches on the enum's *class*, not
its values — an `IntEnum` component's `enum` key holds the member values
sorted ascending, while every plain `Enum` component (string-valued or
integer-valued alike) holds the member names sorted ascending
lexicographically (sortedness stated as `Sorted (≤)` plus a permutation
of the input); the component also carries `title` = type name and,
exactly when a docstring is present, `description` = docstring; and the
enum is registered as a named component, its use site building to a
`$ref`. -/
theorem enum_schema_rule (n s : String) (doc : Option String) (intE : Bool)
    (members : List (String × EnumVal)) (ns : List Entry) (tmpl : RefTemplate) :
    buildBody ns tmpl (.enumT n s doc intE members) = .ok (.obj
      ([("title", .str n)] ++ withDoc doc ++ [("enum", enumKeyJson intE members)])) ∧
    (intE = true →
      enumKeyJson intE members =
        .arr ((sortedInts (intsOf (members.map (·.2)))).map .int) ∧
      (sortedInts (intsOf (members.map (·.2)))).Sorted (fun a b => a ≤ b) ∧
      List.Perm (sortedInts (intsOf (members.map (·.2)))) (intsOf (members.map (·.2)))) ∧
    (intE = false →
      enumKeyJson intE members = .arr ((sortedStrs (members.map (·.1))).map .str) ∧
      (sortedStrs (members.map (·.1))).Sorted (fun a b => a ≤ b) ∧
      List.Perm (sortedStrs (members.map (·.1))) (members.map (·.1))) ∧
    withDoc none = ([] : List (String × JSON)) ∧
    (∀ d : String, withDoc (some d) = [("description", .str d)]) ∧
    collect (.enumT n s doc intE members) = [⟨s, n, .enumT n s doc intE members⟩] ∧
    build ns tmpl (.enumT n s doc intE members) =
      .ok (refFor tmpl (finalName ns s n)) := by
  refine ⟨?_, fun h => ⟨?_, sortedInts_sorted _, sortedInts_perm _⟩,
          fun h => ⟨?_, sortedStrs_sorted _, sortedStrs_perm _⟩,
          rfl, fun d => rfl, rfl, rfl⟩
  · rfl
  · simp [enumKeyJson, h]
  · simp [enumKeyJson, h]

/-- C3 witness: the enum rule applied to the test suite's enums —
`test_int_enum`'s `IntEnum` (values `1, 3, 2` listed as `C, B, A`,
giving sorted values), `test_enum`'s plain string-valued `Enum` (names
sorted), and the int-valued plain `ExEnum` (names, not values),
reproducing the expected documents. -/
theorem enum_schema_rule_witness :
    jsonSchema (.enumT "Example" "mod" none true
      [("C", .vint 1), ("B", .vint 3), ("A", .vint 2)]) = .ok (.obj
      [("$ref", .str "#/$defs/Example"),
       ("$defs", .obj [("Example", .obj [("title", .str "Example"),
         ("enum", .arr [.int 1, .int 2, .int 3])])])]) ∧
    jsonSchema (.enumT "Example" "mod" (some "A docstring") false
      [("C", .vstr "x"), ("B", .vstr "z"), ("A", .vstr "y")]) = .ok (.obj
      [("$ref", .str "#/$defs/Example"),
       ("$defs", .obj [("Example", .obj [("title", .str "Example"),
         ("description", .str "A docstring"),
         ("enum", .arr [.str "A", .str "B", .str "C"])])])]) ∧
    jsonSchema (.enumT "ExEnum" "mod" none false [("A", .vint 1)]) = .ok (.obj
      [("$ref", .str "#/$defs/ExEnum"),
       ("$defs", .obj [("ExEnum", .obj [("title", .str "ExEnum"),
         ("enum", .arr [.str "A"])])])]) ∧
    (sortedInts [1, 3, 2]).Sorted (fun a b => a ≤ b) ∧
    (sortedStrs ["C", "B", "A"]).Sorted (fun a b => a ≤ b) ∧
    (sortedStrs ["A"]).Sorted (fun a b => a ≤ b) := by
  refine ⟨rfl, rfl, rfl, ?_, ?_, ?_⟩
  · exact ((enum_schema_rule "Example" "mod" none true
      [("C", .vint 1), ("B", .vint 3), ("A", .vint 2)] [] defaultTemplate).2.1 rfl).2.1
  · exact ((enum_schema_rule "Example" "mod" (some "A docstring") false
      [("C", .vstr "x"), ("B", .vstr "z"), ("A", .vstr "y")] [] defaultTemplate).2.2.1 rfl).2.1
  · exact ((enum_schema_rule "ExEnum" "mod" none false
      [("A", .vint 1)] [] defaultTemplate).2.2.1 rfl).2.1

end Msgspec

namespace Msgspec

/-- Slots of an all-untyped field group: each slot is the empty fragment,
plus `"default"` when the field carries one. -/
theorem buildSlots_untyped (ns : List Entry) (tmpl : RefTemplate)
    (fields : List (String × TypeDescriptor × Option JSON)) :
    (∀ f ∈ fields, f.2.1 = TypeDescriptor.any) →
    buildSlots ns tmpl fields = .ok (fields.map fun f =>
      match f.2.2 with
      | none => JSON.obj []
      | some d => JSON.obj [("default", d)]) := by
  induction fields with
  | nil => intro _; rfl
  | cons f rest ih =>
    intro h
    obtain ⟨fn, ft, fd⟩ := f
    have h1 : ft = .any := h (fn, ft, fd) (List.mem_cons_self _ _)
    subst h1
    have ih2 := ih (fun f hf => h f (List.mem_cons_of_mem _ hf))
    cases fd with
    | none =>
      simp only [buildSlots]
      rw [ih2]
      rfl
    | some d =>
      simp only [buildSlots]
      rw [ih2]
      rfl

/-- C10: an array-layout named field group whose fields carry no type
information gets the empty fragment `{}` for each untyped `prefixItems`
slot (with `"default"` added to that otherwise-empty slot when the field
has a default), while `minItems` is the count of leading fields without a
default and `maxItems` the total field count. -/
theorem untyped_namedtuple_slots (n s : String) (doc : Option String)
    (fields : List (String × TypeDescriptor × Option JSON))
    (ns : List Entry) (tmpl : RefTemplate)
    (h : ∀ f ∈ fields, f.2.1 = TypeDescriptor.any) :
    buildBody ns tmpl (.namedFields n s doc fields .arrayLike) = .ok (.obj
      ([("title", .str n)] ++ withDoc doc ++
       [("type", .str "array"),
        ("prefixItems", .arr (fields.map fun f =>
          match f.2.2 with
          | none => JSON.obj []
          | some d => JSON.obj [("default", d)])),
        ("minItems", .int (leadingRequired fields)),
        ("maxItems", .int fields.length)])) := by
  simp only [buildBody]
  rw [buildSlots_untyped ns tmpl fields h]
  rfl

/-- C10 witness: the rule applied to `test_collections_namedtuple`'s
`namedtuple("Example", ["a", "b", "c"], defaults=(0,))`, reproducing the
expected document. -/
theorem untyped_namedtuple_slots_witness :
    jsonSchema (.namedFields "Example" "mod" none
      [("a", .any, none), ("b", .any, none), ("c", .any, some (.int 0))]
      .arrayLike) = .ok (.obj
      [("$ref", .str "#/$defs/Example"),
       ("$defs", .obj [("Example", .obj [("title", .str "Example"),
         ("type", .str "array"),
         ("prefixItems", .arr [.obj [], .obj [], .obj [("default", .int 0)]]),
         ("minItems", .int 2), ("maxItems", .int 3)])])]) ∧
    buildBody [] defaultTemplate (.namedFields "Example" "mod" none
      [("a", .any, none), ("b", .any, none), ("c", .any, some (.int 0))]
      .arrayLike) = .ok (.obj
      [("title", .str "Example"), ("type", .str "array"),
       ("prefixItems", .arr [.obj [], .obj [], .obj [("default", .int 0)]]),
       ("minItems", .int 2), ("maxItems", .int 3)]) := by
  refine ⟨rfl, ?_⟩
  have happ := untyped_namedtuple_slots "Example" "mod" none
    [("a", .any, none), ("b", .any, none), ("c", .any, some (.int 0))]
    [] defaultTemplate (by
      intro f hf
      simp only [List.mem_cons, List.not_mem_nil, or_false] at hf
      rcases hf with rfl | rfl | rfl <;> rfl)
  simpa using happ

end Msgspec

namespace Msgspec

/-- Appending a common suffix to strings is cancellative. -/
theorem str_append_right_cancel {a b c : String} (h : a ++ c = b ++ c) : a = b := by
  have hd : a.data ++ c.data = b.data ++ c.data := by
    have := congrArg String.data h
    simpa [String.data_append] using this
  have hab : a.data = b.data := List.append_cancel_right hd
  cases a
  cases b
  exact congrArg String.mk hab

/-- Appending a common prefix to strings is cancellative. -/
theorem str_append_left_cancel {a b c : String} (h : a ++ b = a ++ c) : b = c := by
  have hd : a.data ++ b.data = a.data ++ c.data := by
    have := congrArg String.data h
    simpa [String.data_append] using this
  have hbc : b.data = c.data := List.append_cancel_left hd
  cases b
  cases c
  exact congrArg String.mk hbc

/-- Qualified names built from distinct scopes and one short name are
distinct. -/
theorem qualified_ne {s1 s2 n : String} (hne : s1 ≠ s2) :
    s1 ++ "." ++ n ≠ s2 ++ "." ++ n := by
  intro h
  exact hne (str_append_right_cancel (str_append_right_cancel
    (by rwa [String.append_assoc, String.append_assoc] at h)))

/-- Substituting distinct names into one reference template yields
distinct reference texts. -/
theorem tmpl_apply_inj (tmpl : RefTemplate) {a b : String}
    (h : tmpl.apply a = tmpl.apply b) : a = b := by
  unfold RefTemplate.apply at h
  exact str_append_left_cancel (str_append_right_cancel h)

/-- C8: whenever two entries of the registry share a short name but have
distinct identities (distinct defining scopes), both are renamed to
`"<defining-scope>.<short_name>"`; the two final component names are
distinct and the two emitted `$ref` fragments are distinct, for any
reference template. -/
theorem name_collision_qualification (e1 e2 : Entry) (ns : List Entry)
    (tmpl : RefTemplate)
    (hshort : e1.short = e2.short) (hscope : e1.scope ≠ e2.scope)
    (h1 : e1 ∈ ns) (h2 : e2 ∈ ns) :
    finalName ns e1.scope e1.short = e1.scope ++ "." ++ e1.short ∧
    finalName ns e2.scope e2.short = e2.scope ++ "." ++ e2.short ∧
    finalName ns e1.scope e1.short ≠ finalName ns e2.scope e2.short ∧
    refFor tmpl (finalName ns e1.scope e1.short) ≠
      refFor tmpl (finalName ns e2.scope e2.short) := by
  have hc1 : collides ns e1.scope e1.short = true := by
    apply List.any_eq_true.mpr
    refine ⟨e2, h2, ?_⟩
    rw [decide_eq_true_eq]
    exact ⟨hshort.symm, fun hh => hscope hh.symm⟩
  have hc2 : collides ns e2.scope e2.short = true := by
    apply List.any_eq_true.mpr
    refine ⟨e1, h1, ?_⟩
    rw [decide_eq_true_eq]
    exact ⟨hshort, fun hh => hscope hh⟩
  have hf1 : finalName ns e1.scope e1.short = e1.scope ++ "." ++ e1.short := by
    simp [finalName, hc1]
  have hf2 : finalName ns e2.scope e2.short = e2.scope ++ "." ++ e2.short := by
    simp [finalName, hc2]
  have hne : finalName ns e1.scope e1.short ≠ finalName ns e2.scope e2.short := by
    rw [hf1, hf2, hshort]
    exact qualified_ne hscope
  refine ⟨hf1, hf2, hne, fun h => hne ?_⟩
  apply tmpl_apply_inj tmpl
  have h3 := congrArg (fun j => JSON.get j "$ref") h
  simp only [refFor, JSON.get, JSON.lookup, if_true, Option.some.injEq,
    JSON.str.injEq, if_pos] at h3
  exact h3

/-- C8 witness: the collision rule applied to the two `"Ex"` records of
`test_component_names_collide`, plus the full two-root document the model
produces for them (no error is surfaced). -/
theorem name_collision_qualification_witness :
    schemaComponents
      [.namedRecord "Ex" "mod1" none
        [("x", .intT, none), ("y", .intT, none)] .objectLike none,
       .namedRecord "Ex" "mod2" none
        [("a", .strT, none), ("b", .strT, none)] .objectLike none]
      defaultTemplate = .ok
      ([.obj [("$ref", .str "#/$defs/mod1.Ex")],
        .obj [("$ref", .str "#/$defs/mod2.Ex")]],
       [("mod1.Ex", .obj [("title", .str "Ex"), ("type", .str "object"),
          ("properties", .obj [("x", .obj [("type", .str "integer")]),
                               ("y", .obj [("type", .str "integer")])]),
          ("required", .arr [.str "x", .str "y"])]),
        ("mod2.Ex", .obj [("title", .str "Ex"), ("type", .str "object"),
          ("properties", .obj [("a", .obj [("type", .str "string")]),
                               ("b", .obj [("type", .str "string")])]),
          ("required", .arr [.str "a", .str "b"])])]) ∧
    finalName
      [⟨"mod1", "Ex", .namedRecord "Ex" "mod1" none
        [("x", .intT, none), ("y", .intT, none)] .objectLike none⟩,
       ⟨"mod2", "Ex", .namedRecord "Ex" "mod2" none
        [("a", .strT, none), ("b", .strT, none)] .objectLike none⟩]
      "mod1" "Ex" = "mod1.Ex" ∧
    finalName
      [⟨"mod1", "Ex", .namedRecord "Ex" "mod1" none
        [("x", .intT, none), ("y", .intT, none)] .objectLike none⟩,
       ⟨"mod2", "Ex", .namedRecord "Ex" "mod2" none
        [("a", .strT, none), ("b", .strT, none)] .objectLike none⟩]
      "mod2" "Ex" = "mod2.Ex" ∧
    ("mod1.Ex" : String) ≠ "mod2.Ex" := by
  have happ := name_collision_qualification
    ⟨"mod1", "Ex", .namedRecord "Ex" "mod1" none
      [("x", .intT, none), ("y", .intT, none)] .objectLike none⟩
    ⟨"mod2", "Ex", .namedRecord "Ex" "mod2" none
      [("a", .strT, none), ("b", .strT, none)] .objectLike none⟩
    [⟨"mod1", "Ex", .namedRecord "Ex" "mod1" none
      [("x", .intT, none), ("y", .intT, none)] .objectLike none⟩,
     ⟨"mod2", "Ex", .namedRecord "Ex" "mod2" none
      [("a", .strT, none), ("b", .strT, none)] .objectLike none⟩]
    defaultTemplate rfl (by decide)
    (List.Mem.head _) (List.Mem.tail _ (List.Mem.head _))
  refine ⟨rfl, ?_, ?_, by decide⟩
  · exact happ.1
  · exact happ.2.1

end Msgspec

namespace Msgspec

/-- The non-eligible fragments of a union are exactly the fragments of
the non-eligible members, in their original relative order. -/
theorem buildOthers_eq_filter (ns : List Entry) (tmpl : RefTemplate)
    (ms : List TypeDescriptor) :
    buildOthers ns tmpl ms =
      buildList ns tmpl (ms.filter fun m => (eligInfo m).isNone) := by
  induction ms with
  | nil => rfl
  | cons t ts ih =>
    cases hh : eligInfo t with
    | some v =>
      simp only [buildOthers, hh, Option.isSome_some, if_pos, List.filter_cons,
        Option.isNone_some, Bool.false_eq_true, if_false, ih]
    | none =>
      simp only [buildOthers, hh, Option.isSome_none, Bool.false_eq_true, if_false,
        List.filter_cons, Option.isNone_none, if_true, buildList, ih]

/-- A union whose members are all discriminator-eligible has no
non-eligible fragments. -/
theorem buildOthers_all_elig (ns : List Entry) (tmpl : RefTemplate)
    (ms : List TypeDescriptor)
    (hall : ∀ m ∈ ms, (eligInfo m).isSome = true) :
    buildOthers ns tmpl ms = .ok [] := by
  rw [buildOthers_eq_filter]
  have : (ms.filter fun m => (eligInfo m).isNone) = [] := by
    apply List.filter_eq_nil_iff.mpr
    intro a ha hcontra
    have := hall a ha
    cases hh : eligInfo a
    · rw [hh] at this
      exact Bool.noConfusion this
    · rw [hh] at hcontra
      exact Bool.noConfusion hcontra
  rw [this]
  rfl

/-- A `filterMap` over a list on which the function never fails keeps
the length: one output per input. -/
theorem filterMap_length_all_some {α β : Type} (f : α → Option β)
    (l : List α) (h : ∀ a ∈ l, (f a).isSome = true) :
    (l.filterMap f).length = l.length := by
  induction l with
  | nil => rfl
  | cons a as ih =>
    have ha := h a (List.mem_cons_self _ _)
    cases hh : f a with
    | none => rw [hh] at ha; exact Bool.noConfusion ha
    | some b =>
      rw [List.filterMap_cons_some hh]
      simp only [List.length_cons]
      rw [ih (fun x hx => h x (List.mem_cons_of_mem _ hx))]

/-- C1 as amended: discriminator eligibility requires *object layout* —
for every union whose members are all tagged object-layout records
sharing tag field `tf`, the fragment is `{"anyOf": [one $ref per member,
in original order], "discriminator": {"propertyName": tf, "mapping":
{tag value ↦ ref}}}` (the last conjunct counts one eligible entry per
member). -/
theorem taggedObjectUnion_discriminator (ns : List Entry) (tmpl : RefTemplate)
    (ms : List TypeDescriptor) (tf : String)
    (hall : ∀ m ∈ ms, (eligInfo m).isSome = true)
    (hne : ms ≠ [])
    (htf : ∀ i ∈ ms.filterMap eligInfo, i.1 = tf) :
    build ns tmpl (.unionT ms) =
      .ok (groupedFragment ns tmpl tf (ms.filterMap eligInfo)) ∧
    groupedFragment ns tmpl tf (ms.filterMap eligInfo) = .obj
      [("anyOf", .arr ((ms.filterMap eligInfo).map fun e =>
          refFor tmpl (finalName ns e.2.2.1 e.2.2.2))),
       ("discriminator", .obj
         [("propertyName", .str tf),
          ("mapping", .obj ((ms.filterMap eligInfo).map fun e =>
            (tagKey e.2.1, .str (tmpl.apply (finalName ns e.2.2.1 e.2.2.2)))))])] ∧
    (ms.filterMap eligInfo).length = ms.length := by
  refine ⟨?_, rfl, filterMap_length_all_some _ _ hall⟩
  have hothers := buildOthers_all_elig ns tmpl ms hall
  cases hl : ms.filterMap eligInfo with
  | nil =>
    obtain ⟨m0, ms', rfl⟩ : ∃ m0 ms', ms = m0 :: ms' := by
      cases ms with
      | nil => exact absurd rfl hne
      | cons a as => exact ⟨a, as, rfl⟩
    have h0 := hall m0 (List.mem_cons_self _ _)
    cases hh : eligInfo m0 with
    | none => rw [hh] at h0; exact Bool.noConfusion h0
    | some v =>
      rw [List.filterMap_cons_some hh] at hl
      exact List.noConfusion hl
  | cons i restE =>
    obtain ⟨tf0, r0⟩ := i
    have htf0 : tf0 = tf := htf (tf0, r0) (by rw [hl]; exact List.mem_cons_self _ _)
    subst htf0
    have hcond : ((tf0, r0) :: restE).all (fun e => decide (e.1 = tf0)) = true := by
      apply List.all_eq_true.mpr
      intro e he
      exact decide_eq_true (htf e (by rw [hl]; exact he))
    simp only [build, hl]
    rw [if_pos hcond, hothers]
    rfl

/-- C1 counterexample: the claim as stated also covers tagged
*array-layout* records, but the union of the two tagged array-layout
`Point`/`Point3D` records builds to a plain `anyOf` of refs with no
`discriminator` key at all — exactly the document expected by
`test_struct_array_union`. -/
theorem arrayTaggedUnion_lacks_discriminator :
    jsonSchema (.unionT [PointArrT, Point3DArrT]) = .ok arrayUnionDoc ∧
    arrayUnionDoc.get "discriminator" = none ∧
    arrayUnionDoc.get "anyOf" = some (.arr
      [.obj [("$ref", .str "#/$defs/Point")],
       .obj [("$ref", .str "#/$defs/Point3D")]]) :=
  ⟨rfl, rfl, rfl⟩

/-- C1 witness: the amended rule applied to the object-layout
`Union[Point, Point3D]`, plus the full document of
`test_struct_tagged_union`. -/
theorem taggedObjectUnion_discriminator_witness :
    jsonSchema (.unionT [PointT, Point3DT]) = .ok (.obj
      [("anyOf", .arr [.obj [("$ref", .str "#/$defs/Point")],
                       .obj [("$ref", .str "#/$defs/Point3D")]]),
       ("discriminator", .obj [("propertyName", .str "type"),
         ("mapping", .obj [("Point", .str "#/$defs/Point"),
                           ("Point3D", .str "#/$defs/Point3D")])]),
       ("$defs", .obj [("Point", PointBody), ("Point3D", Point3DBody)])]) ∧
    build [] defaultTemplate (.unionT [PointT, Point3DT]) = .ok (.obj
      [("anyOf", .arr [.obj [("$ref", .str "#/$defs/Point")],
                       .obj [("$ref", .str "#/$defs/Point3D")]]),
       ("discriminator", .obj [("propertyName", .str "type"),
         ("mapping", .obj [("Point", .str "#/$defs/Point"),
                           ("Point3D", .str "#/$defs/Point3D")])])]) := by
  refine ⟨rfl, ?_⟩
  have happ := taggedObjectUnion_discriminator [] defaultTemplate
    [PointT, Point3DT] "type" (by decide) (List.cons_ne_nil _ _) (by decide)
  exact happ.1

/-- C2: in a union where some but not all members are
discriminator-eligible, the output is an outer `anyOf` holding the
non-eligible members' fragments first — in their original relative
order, per the second conjunct's characterisation of `buildOthers` as a
filter — followed by exactly one nested grouped fragment
`{"anyOf": [refs], "discriminator": {...}}` for all eligible members. -/
theorem mixedUnion_grouping (ns : List Entry) (tmpl : RefTemplate)
    (ms : List TypeDescriptor) (tf : String) (fs : List JSON)
    (hsome : ms.filterMap eligInfo ≠ [])
    (htf : ∀ i ∈ ms.filterMap eligInfo, i.1 = tf)
    (hfs : buildList ns tmpl (ms.filter fun m => (eligInfo m).isNone) = .ok fs)
    (hfs_ne : fs ≠ []) :
    build ns tmpl (.unionT ms) = .ok (.obj
      [("anyOf", .arr (fs ++ [groupedFragment ns tmpl tf (ms.filterMap eligInfo)]))]) ∧
    buildOthers ns tmpl ms =
      buildList ns tmpl (ms.filter fun m => (eligInfo m).isNone) := by
  refine ⟨?_, buildOthers_eq_filter ns tmpl ms⟩
  have hothers : buildOthers ns tmpl ms = .ok fs := by
    rw [buildOthers_eq_filter]
    exact hfs
  cases hl : ms.filterMap eligInfo with
  | nil => exact absurd hl hsome
  | cons i restE =>
    obtain ⟨tf0, r0⟩ := i
    have htf0 : tf0 = tf := htf _ (by rw [hl]; exact List.mem_cons_self _ _)
    subst htf0
    have hcond : ((tf0, r0) :: restE).all (fun e => decide (e.1 = tf0)) = true := by
      apply List.all_eq_true.mpr
      intro e he
      exact decide_eq_true (htf e (by rw [hl]; exact he))
    simp only [build, hl]
    rw [if_pos hcond, hothers]
    obtain ⟨f0, fs', rfl⟩ : ∃ f0 fs', fs = f0 :: fs' := by
      cases fs with
      | nil => exact absurd rfl hfs_ne
      | cons a as => exact ⟨a, as, rfl⟩
    rfl

/-- C2 witness: the mixed-union rule applied to
`Union[Point, Point3D, int, float]`, plus the full document of
`test_struct_tagged_union_mixed_types`. -/
theorem mixedUnion_grouping_witness :
    jsonSchema (.unionT [PointT, Point3DT, .intT, .floatT]) = .ok (.obj
      [("anyOf", .arr [.obj [("type", .str "integer")],
                       .obj [("type", .str "number")],
                       .obj [("anyOf", .arr [.obj [("$ref", .str "#/$defs/Point")],
                                             .obj [("$ref", .str "#/$defs/Point3D")]]),
                             ("discriminator", .obj [("propertyName", .str "type"),
                               ("mapping", .obj [("Point", .str "#/$defs/Point"),
                                 ("Point3D", .str "#/$defs/Point3D")])])]]),
       ("$defs", .obj [("Point", PointBody), ("Point3D", Point3DBody)])]) ∧
    build [] defaultTemplate (.unionT [PointT, Point3DT, .intT, .floatT]) = .ok (.obj
      [("anyOf", .arr [.obj [("type", .str "integer")],
                       .obj [("type", .str "number")],
                       .obj [("anyOf", .arr [.obj [("$ref", .str "#/$defs/Point")],
                                             .obj [("$ref", .str "#/$defs/Point3D")]]),
                             ("discriminator", .obj [("propertyName", .str "type"),
                               ("mapping", .obj [("Point", .str "#/$defs/Point"),
                                 ("Point3D", .str "#/$defs/Point3D")])])]])]) := by
  refine ⟨rfl, ?_⟩
  have happ := mixedUnion_grouping [] defaultTemplate
    [PointT, Point3DT, .intT, .floatT] "type"
    [.obj [("type", .str "integer")], .obj [("type", .str "number")]]
    (by decide) (by decide) rfl (List.cons_ne_nil _ _)
  exact happ.1

end Msgspec

namespace Msgspec

/-- Deduplication keeps one entry per identity: the surviving identities
are distinct and none of them was already seen. -/
theorem dedupGo_nodup (l : List Entry) (seen : List (String × String)) :
    ((dedupGo seen l).map entryId).Nodup ∧
    ∀ i ∈ (dedupGo seen l).map entryId, i ∉ seen := by
  induction l generalizing seen with
  | nil => exact ⟨List.nodup_nil, by simp [dedupGo]⟩
  | cons e rest ih =>
    by_cases h : entryId e ∈ seen
    · simp only [dedupGo, if_pos h]
      exact ih seen
    · simp only [dedupGo, if_neg h]
      obtain ⟨ih1, ih2⟩ := ih (entryId e :: seen)
      refine ⟨List.nodup_cons.mpr ⟨?_, ih1⟩, ?_⟩
      · intro hmem
        exact (ih2 _ hmem) (List.mem_cons_self _ _)
      · intro i hi
        simp only [List.map_cons, List.mem_cons] at hi
        rcases hi with rfl | hi
        · exact h
        · intro hcontra
          exact ih2 i hi (List.mem_cons_of_mem _ hcontra)

/-- Deduplication only keeps entries of the input list. -/
theorem dedupGo_subset (seen : List (String × String)) (l : List Entry) :
    ∀ e ∈ dedupGo seen l, e ∈ l := by
  induction l generalizing seen with
  | nil => intro e he; simp [dedupGo] at he
  | cons a rest ih =>
    intro e he
    simp only [dedupGo] at he
    by_cases h : entryId a ∈ seen
    · rw [if_pos h] at he
      exact List.mem_cons_of_mem _ (ih seen e he)
    · rw [if_neg h] at he
      rcases List.mem_cons.mp he with rfl | h2
      · exact List.mem_cons_self _ _
      · exact List.mem_cons_of_mem _ (ih _ e h2)

mutual

/-- Every collected registry entry is a named descriptor whose identity
matches the entry's `(scope, short name)`; anonymous composites are never
collected. -/
theorem collect_named : ∀ t : TypeDescriptor, ∀ e ∈ collect t,
    identOf e.desc = some (e.scope, e.short)
  | .enumT n s d ie ms, e, he => by
    simp only [collect, List.mem_singleton] at he
    subst he
    rfl
  | .seq el, e, he => collect_named el e he
  | .tupleFixed es, e, he => collectList_named es e he
  | .mapOf v, e, he => collect_named v e he
  | .namedRecord n s d fs l tg, e, he => by
    rcases List.mem_cons.mp he with rfl | h2
    · rfl
    · exact collectFields_named fs e h2
  | .namedFields n s d fs l, e, he => by
    rcases List.mem_cons.mp he with rfl | h2
    · rfl
    · exact collectFields_named fs e h2
  | .unionT ms, e, he => collectList_named ms e he
  | .annotated inner m, e, he => collect_named inner e he
  | .any, _, he => nomatch he
  | .nullT, _, he => nomatch he
  | .boolT, _, he => nomatch he
  | .intT, _, he => nomatch he
  | .floatT, _, he => nomatch he
  | .strT, _, he => nomatch he
  | .binary, _, he => nomatch he
  | .raw, _, he => nomatch he
  | .ext, _, he => nomatch he
  | .literal _, _, he => nomatch he
  | .seqUntyped, _, he => nomatch he
  | .mapUntyped, _, he => nomatch he
  | .custom _, _, he => nomatch he

/-- List version of `collect_named`. -/
theorem collectList_named : ∀ ts : List TypeDescriptor, ∀ e ∈ collectList ts,
    identOf e.desc = some (e.scope, e.short)
  | [], _, he => nomatch he
  | t :: ts, e, he => by
    rcases List.mem_append.mp he with h1 | h2
    · exact collect_named t e h1
    · exact collectList_named ts e h2

/-- Field version of `collect_named`. -/
theorem collectFields_named :
    ∀ fs : List (String × TypeDescriptor × Option JSON),
      ∀ e ∈ collectFields fs, identOf e.desc = some (e.scope, e.short)
  | [], _, he => nomatch he
  | (fn, ft, fd) :: fs, e, he => by
    rcases List.mem_append.mp he with h1 | h2
    · exact collect_named ft e h1
    · exact collectFields_named fs e h2

end

/-- The components map lists exactly the registry entries, keyed by their
final names, in order. -/
theorem buildComponents_names (ns : List Entry) (tmpl : RefTemplate)
    (entries : List Entry) (comps : List (String × JSON))
    (h : buildComponents ns tmpl entries = .ok comps) :
    comps.map Prod.fst = entries.map (fun e => finalName ns e.scope e.short) := by
  induction entries generalizing comps with
  | nil =>
    simp only [buildComponents] at h
    injection h with h2
    subst h2
    rfl
  | cons e rest ih =>
    simp only [buildComponents] at h
    cases hb : buildBody ns tmpl e.desc with
    | error msg =>
      rw [hb] at h
      exact Except.noConfusion h
    | ok body =>
      rw [hb] at h
      cases hc : buildComponents ns tmpl rest with
      | error m2 =>
        rw [hc] at h
        exact Except.noConfusion h
      | ok others =>
        rw [hc] at h
        injection h with h2
        subst h2
        simp only [List.map_cons]
        rw [ih others hc]

/-- C9: each distinct named-type identity appears in the components map
exactly once (the deduplicated entry identities are `Nodup`, the map
holds one entry per deduplicated registry entry), every named node's use
site builds to a `$ref` (enum / record / field-group conjuncts), and no
anonymous composite is ever placed in components (every collected entry
is named, by `collect_named`). -/
theorem components_registry_invariant :
    (∀ l : List Entry, ((dedupById l).map entryId).Nodup) ∧
    (∀ roots : List TypeDescriptor, ∀ e ∈ dedupById (collectList roots),
        identOf e.desc = some (e.scope, e.short)) ∧
    (∀ (ns : List Entry) (tmpl : RefTemplate) n s d ie ms,
        build ns tmpl (.enumT n s d ie ms) = .ok (refFor tmpl (finalName ns s n))) ∧
    (∀ (ns : List Entry) (tmpl : RefTemplate) n s d fs l tg,
        build ns tmpl (.namedRecord n s d fs l tg) =
          .ok (refFor tmpl (finalName ns s n))) ∧
    (∀ (ns : List Entry) (tmpl : RefTemplate) n s d fs l,
        build ns tmpl (.namedFields n s d fs l) =
          .ok (refFor tmpl (finalName ns s n))) ∧
    (∀ (roots : List TypeDescriptor) (tmpl : RefTemplate) frags comps,
        schemaComponents roots tmpl = .ok (frags, comps) →
        comps.map Prod.fst = (dedupById (collectList roots)).map
          (fun e => finalName (dedupById (collectList roots)) e.scope e.short)) := by
  refine ⟨fun l => (dedupGo_nodup l []).1,
          fun roots e he => collectList_named roots e (dedupGo_subset [] _ e he),
          fun ns tmpl n s d ie ms => rfl,
          fun ns tmpl n s d fs l tg => rfl,
          fun ns tmpl n s d fs l => rfl,
          ?_⟩
  intro roots tmpl frags comps h
  simp only [schemaComponents] at h
  cases hb : buildList (dedupById (collectList roots)) tmpl roots with
  | error msg =>
    rw [hb] at h
    exact Except.noConfusion h
  | ok frags2 =>
    rw [hb] at h
    cases hc : buildComponents (dedupById (collectList roots)) tmpl
        (dedupById (collectList roots)) with
    | error m2 =>
      rw [hc] at h
      exact Except.noConfusion h
    | ok comps2 =>
      rw [hc] at h
      injection h with h2
      have hcomps : comps2 = comps := congrArg Prod.snd h2
      subst hcomps
      exact buildComponents_names _ _ _ _ hc

/-- C9 witness: the invariant applied to the multi-level fixture of
`test_schema_components_collects_subtypes`, whose full document is
reproduced and whose four component names are distinct. -/
theorem components_registry_invariant_witness :
    schemaComponents [.mapOf ExTupleT] defaultTemplate = .ok
      ([.obj [("type", .str "object"),
        ("additionalProperties", .obj [("$ref", .str "#/$defs/ExTuple")])]],
       [("ExTuple", .obj [("title", .str "ExTuple"), ("type", .str "array"),
          ("prefixItems", .arr [.obj [("type", .str "array"),
            ("items", .obj [("$ref", .str "#/$defs/ExDict")])]]),
          ("minItems", .int 1), ("maxItems", .int 1)]),
        ("ExDict", .obj [("title", .str "ExDict"), ("type", .str "object"),
          ("properties", .obj [("c", .obj [("type", .str "array"),
            ("items", .obj [("$ref", .str "#/$defs/ExStruct")])])]),
          ("required", .arr [.str "c"])]),
        ("ExStruct", .obj [("title", .str "ExStruct"), ("type", .str "object"),
          ("properties", .obj [("b", .obj [("anyOf", .arr
            [.obj [("type", .str "array"), ("items", .obj [("type", .str "array"),
              ("items", .obj [("$ref", .str "#/$defs/ExEnum")])])],
             .obj [("type", .str "integer")]])])]),
          ("required", .arr [.str "b"])]),
        ("ExEnum", .obj [("title", .str "ExEnum"),
          ("enum", .arr [.str "A"])])]) ∧
    ([("ExTuple", JSON.obj []), ("ExDict", JSON.obj []), ("ExStruct", JSON.obj []),
      ("ExEnum", JSON.obj [])].map Prod.fst =
        (dedupById (collectList [.mapOf ExTupleT])).map
          (fun e => finalName (dedupById (collectList [.mapOf ExTupleT]))
            e.scope e.short)) ∧
    ((dedupById (collectList [.mapOf ExTupleT])).map entryId).Nodup := by
  refine ⟨rfl, ?_, components_registry_invariant.1 (collectList [.mapOf ExTupleT])⟩
  have happ := components_registry_invariant.2.2.2.2.2 [.mapOf ExTupleT]
    defaultTemplate
    [.obj [("type", .str "object"),
      ("additionalProperties", .obj [("$ref", .str "#/$defs/ExTuple")])]]
    [("ExTuple", .obj [("title", .str "ExTuple"), ("type", .str "array"),
        ("prefixItems", .arr [.obj [("type", .str "array"),
          ("items", .obj [("$ref", .str "#/$defs/ExDict")])]]),
        ("minItems", .int 1), ("maxItems", .int 1)]),
      ("ExDict", .obj [("title", .str "ExDict"), ("type", .str "object"),
        ("properties", .obj [("c", .obj [("type", .str "array"),
          ("items", .obj [("$ref", .str "#/$defs/ExStruct")])])]),
        ("required", .arr [.str "c"])]),
      ("ExStruct", .obj [("title", .str "ExStruct"), ("type", .str "object"),
        ("properties", .obj [("b", .obj [("anyOf", .arr
          [.obj [("type", .str "array"), ("items", .obj [("type", .str "array"),
            ("items", .obj [("$ref", .str "#/$defs/ExEnum")])])],
           .obj [("type", .str "integer")]])])]),
        ("required", .arr [.str "b"])]),
      ("ExEnum", .obj [("title", .str "ExEnum"), ("enum", .arr [.str "A"])])]
    rfl
  simpa using happ

end Msgspec
